import Mathlib

/-!
Shallow embedding of `src/chart.rs` of the fast-umap repository: the scatter
renderer `chart_vector` (axis ranges, label→color assignment, point drawing,
hand-laid-out legend) and the Y-range computation of the loss-curve renderer
`plot_loss`.

Modelling conventions:
* Rust `f64` coordinates are embedded as `ℚ`.  On the modelled paths the code
  performs only `+ - * / abs min max` and comparisons through
  `partial_cmp(..).unwrap()`, which on non-NaN inputs is the total order.
* A Rust panic (`unwrap()` on `None`/`Err`, out-of-bounds index) is modelled
  as `Except.error` with a `Panic` constructor naming the panic site.
  `chart_vector` in the source returns `()` and has no error channel at all:
  every failure aborts the process.
* Drawing calls to the plotters backend are recorded as a list of `Cmd`
  values, in the order the source issues them.
* The one source of nondeterminism — the iteration order of the
  `HashSet<String>` used to deduplicate labels (chart.rs:223–227, seeded
  `RandomState`) — is made explicit as the `hashOrder` argument of
  `chart_vector`; `HashSetOrder labels hashOrder` says `hashOrder` is a
  possible iteration order (the distinct labels, each exactly once).
-/

namespace FastUmap

/-- Coordinate scalar: `type Float = f64` (chart.rs:104), embedded as `ℚ`. -/
abbrev F64 : Type := ℚ

/-- An HSL color as constructed at chart.rs:230–235 (`HSL { h, s, l }`). -/
structure HSLColor where
  h : F64
  s : F64
  l : F64
deriving DecidableEq, Repr

/-- Colors reaching the backend.  `hsl c` stands for the `RGBColor` obtained
from `c.to_rgb()`.  For the saturation 0.7 / lightness 0.6 used by the code
every RGB channel of such a color is strictly below 255, so it never equals
the plotters constant `RED = RGBColor(255,0,0)`; the separate constructors
are therefore faithful to RGB equality on the colors the program builds. -/
inductive Color where
  | hsl (c : HSLColor)
  | red
  | white
  | blue
  | black
deriving DecidableEq, Repr

/-- One drawing command issued to the plotters backend. -/
inductive Cmd where
  | fill (c : Color)
  | caption (s : String)
  | mesh
  | circle (center : F64 × F64) (radius : F64) (filled : Bool) (c : Color)
  | text (s : String) (pos : F64 × F64)
  | lineSeries (pts : List (F64 × F64)) (c : Color)
  | present
deriving DecidableEq, Repr

/-- Abnormal termination of `chart_vector`; each constructor is one of the
panic sites of the source:
* `unwrapEmptyMinMax` — `.min_by(..).unwrap()` / `.max_by(..).unwrap()` on an
  empty coordinate iterator (chart.rs:195–218);
* `indexOutOfBounds` — `values[0]` / `values[1]` on a short inner vector
  (chart.rs:280–287);
* `parseUnwrap` — `label.parse::<usize>().unwrap()` failing inside the legend
  sort comparator (chart.rs:302–303). -/
inductive Panic where
  | unwrapEmptyMinMax
  | indexOutOfBounds
  | parseUnwrap
deriving DecidableEq, Repr

/-- chart.rs:18–23. -/
structure ChartConfig where
  caption : String
  path : String
  width : ℕ
  height : ℕ
deriving DecidableEq, Repr

/-- chart.rs:39–46: the `Default` instance. -/
def ChartConfig.default : ChartConfig :=
  { caption := "fast-umap", path := "plot.png", width := 1000, height := 1000 }

/-- `v.iter().step_by(2)`: the elements at even positions. -/
def stepBy2 : List F64 → List F64
  | [] => []
  | [x] => [x]
  | x :: _ :: rest => x :: stepBy2 rest

/-- chart.rs:195–206: the flat sequence of all x coordinates
(`data.iter().flat_map(|v| v.iter().step_by(2))`). -/
def xsOf (data : List (List F64)) : List F64 :=
  (data.map stepBy2).flatten

/-- chart.rs:207–218: the flat sequence of all y coordinates
(`data.iter().flat_map(|v| v.iter().skip(1).step_by(2))`). -/
def ysOf (data : List (List F64)) : List F64 :=
  (data.map fun v => stepBy2 v.tail).flatten

/-- chart.rs:194–218: the four `min_by/max_by(..).unwrap()` computations.
`List.min?` equals the fold of `min` over the list and is `none` exactly when
the iterator is empty, in which case the source's `unwrap()` panics — the
caller maps `none` to `Panic.unwrapEmptyMinMax`. -/
def axisRanges (data : List (List F64)) : Option (F64 × F64 × F64 × F64) :=
  match (xsOf data).min?, (xsOf data).max?, (ysOf data).min?, (ysOf data).max? with
  | some mnx, some mxx, some mny, some mxy => some (mnx, mxx, mny, mxy)
  | _, _, _, _ => none

/-- Helper for chart.rs:228–237: the `for (i, label) in unique_labels.iter().enumerate()`
loop, carrying the running index `i` and the total count `n`. -/
def labelColorsAux (n : ℕ) : ℕ → List String → List (String × Color)
  | _, [] => []
  | i, label :: rest =>
      (label, Color.hsl ⟨(i : F64) * 360 / (n : F64), 7/10, 6/10⟩) ::
        labelColorsAux n (i + 1) rest

/-- chart.rs:222–238: assign each label of the deduplicated list the hue
`i * 360 / n` at saturation 0.7 and lightness 0.6. -/
def labelColorsOf (uniqueLabels : List String) : List (String × Color) :=
  labelColorsAux uniqueLabels.length 0 uniqueLabels

/-- chart.rs:265–269: `labels.clone().map(|l| l.get(i).cloned()).flatten()
.unwrap_or_else(|| "".into())`. -/
def pointLabel (labels : Option (List String)) (i : ℕ) : String :=
  (labels.bind fun l => l.get? i).getD ""

/-- chart.rs:270–274: `label_colors.iter().find(|(l, _)| *l == label)
.map(|(_, c)| *c).unwrap_or(RED)`. -/
def pointColor (lcs : List (String × Color)) (label : String) : Color :=
  ((lcs.find? fun p => p.1 == label).map Prod.snd).getD Color.red

/-- The `series_list` accumulator of chart.rs:260. -/
abbrev Series : Type := List (String × List (F64 × F64) × Color)

/-- chart.rs:277–283: append the point to the existing entry for `label`, or
push a fresh `(label, vec![pt], color)` entry at the end. -/
def pushSeries (sl : Series) (label : String) (pt : F64 × F64) (color : Color) :
    Series :=
  if (sl.find? fun e => e.1 == label).isSome then
    sl.map fun e => if e.1 == label then (e.1, e.2.1 ++ [pt], e.2.2) else e
  else
    sl ++ [(label, [pt], color)]

/-- chart.rs:263–296: the `draw_series` closure over `data.iter().enumerate()`.
For each row it reads `values[0]` and `values[1]` (panicking when the row has
fewer than 2 elements), accumulates `series_list` for non-empty labels, and
emits an unfilled circle of radius 3 in the label's color. -/
def drawPoints (labels : Option (List String)) (lcs : List (String × Color)) :
    ℕ → Series → List (List F64) → Except Panic (List Cmd × Series)
  | _, sl, [] => .ok ([], sl)
  | i, sl, values :: rest =>
      match values.get? 0, values.get? 1 with
      | some x, some y =>
          let label := pointLabel labels i
          let color := pointColor lcs label
          let sl1 := if label = "" then sl else pushSeries sl label (x, y) color
          match drawPoints labels lcs (i + 1) sl1 rest with
          | .ok (cmds, slOut) => .ok (.circle (x, y) 3 false color :: cmds, slOut)
          | .error p => .error p
      | _, _ => .error .indexOutOfBounds

/-- Digit-list accumulator of the decimal parser. -/
def digitsToNat : List Char → ℕ → Option ℕ
  | [], acc => some acc
  | c :: rest, acc =>
      if c.isDigit then digitsToNat rest (acc * 10 + (c.toNat - 48))
      else none

/-- `label.parse::<usize>()`: decimal parse of the label, `none` on the empty
string or any non-digit character.  (Rust's `usize::from_str` additionally
accepts a leading `+` and rejects values above `usize::MAX`; no label in the
developments below exercises either difference.) -/
def parseUsize (s : String) : Option ℕ :=
  match s.data with
  | [] => none
  | c :: rest => digitsToNat (c :: rest) 0

/-- Sort key of the legend comparator, defaulted for the total function
(only consulted after every label was checked to parse). -/
def seriesKey (e : String × List (F64 × F64) × Color) : ℕ :=
  (parseUsize e.1).getD 0

/-- chart.rs:301–306: `series_list.sort_by(|a, b| { a.0.parse::<usize>()
.unwrap() ... })`.  Rust's stable `sort_by` never invokes the comparator on a
slice of fewer than 2 elements; on 2 or more, every element takes part in at
least one comparison, so one non-parsing label makes the `unwrap` panic. -/
def sortSeries (sl : Series) : Except Panic Series :=
  if sl.length ≤ 1 then .ok sl
  else if sl.all fun e => (parseUsize e.1).isSome then
    .ok (List.insertionSort (fun a b => seriesKey a ≤ seriesKey b) sl)
  else .error .parseUnwrap

/-- chart.rs:316–347: the manual legend loop.  Per sorted entry: a filled
swatch circle of radius 5 at the anchor, the label text at horizontal offset
`spacing_y / 4`, then the anchor moves down by `spacing_y`. -/
def legendCmds (spacing : F64) : Series → F64 × F64 → List Cmd
  | [], _ => []
  | (label, _, color) :: rest, pos =>
      .circle pos 5 true color ::
        .text label (pos.1 + spacing / 4, pos.2) ::
          legendCmds spacing rest (pos.1, pos.2 - spacing)

/-- Observable result of a successful `chart_vector` run: the backend command
trace plus the values of the source's `label_colors` and (sorted)
`series_list` variables, and — when the legend block ran — the divisor
`series_list.len() * 2` of the `spacing_y` division (chart.rs:308). -/
structure Output where
  cmds : List Cmd
  labelColors : List (String × Color)
  series : Series
  legendDivisor : Option ℕ
deriving DecidableEq, Repr

/-- chart.rs:183–352: `chart_vector`.  `hashOrder` is the iteration order of
the deduplicating `HashSet<String>` (see the module docstring). -/
def chart_vector (data : List (List F64)) (labels : Option (List String))
    (hashOrder : List String) (config : Option ChartConfig) :
    Except Panic Output :=
  let cfg := config.getD ChartConfig.default
  match axisRanges data with
  | none => .error .unwrapEmptyMinMax
  | some (min_x, max_x, min_y, max_y) =>
    let lcs : List (String × Color) :=
      match labels with
      | none => []
      | some _ => labelColorsOf hashOrder
    match drawPoints labels lcs 0 [] data with
    | .error p => .error p
    | .ok (pointCmds, seriesList) =>
      match labels with
      | none =>
          .ok { cmds := Cmd.fill Color.white :: Cmd.caption cfg.caption ::
                  Cmd.mesh :: (pointCmds ++ [Cmd.present]),
                labelColors := lcs, series := seriesList, legendDivisor := none }
      | some _ =>
          match sortSeries seriesList with
          | .error p => .error p
          | .ok sorted =>
            let divisor := sorted.length * 2
            let spacing := (max_y - min_y) / (divisor : F64)
            let startPos : F64 × F64 :=
              (min_x + (max_x - min_x) * (8/10), max_y - (max_y - min_y) * (1/10))
            .ok { cmds := Cmd.fill Color.white :: Cmd.caption cfg.caption ::
                    Cmd.mesh ::
                      (pointCmds ++ (legendCmds spacing sorted startPos ++ [Cmd.present])),
                  labelColors := lcs, series := sorted,
                  legendDivisor := some divisor }

/-- chart.rs:133–142: the padded Y-range of `plot_loss`.
`losses.iter().cloned().fold(F::infinity(), F::min)` equals `List.min?` on a
non-empty list (and dually for the max); on the empty list the padded
endpoints are `∞ - ∞` (NaN), outside this rational model, returned as
`none`. -/
def plot_loss_yRange (losses : List F64) : Option (F64 × F64) :=
  match losses.min?, losses.max? with
  | some mn, some mx => some (mn - 1/10 * |mn|, mx + 1/10 * |mx|)
  | _, _ => none

/-- `hashOrder` is a possible iteration order of
`labels.into_iter().collect::<HashSet<String>>()`: the distinct labels of the
input, each exactly once, in some order. -/
def HashSetOrder (labels hashOrder : List String) : Prop :=
  hashOrder.Nodup ∧ (∀ s ∈ hashOrder, s ∈ labels) ∧ ∀ s ∈ labels, s ∈ hashOrder

instance (labels hashOrder : List String) :
    Decidable (HashSetOrder labels hashOrder) := by
  unfold HashSetOrder; infer_instance

instance {ε α : Type} [DecidableEq ε] [DecidableEq α] : DecidableEq (Except ε α) :=
  fun a b =>
    match a, b with
    | .error e, .error f => decidable_of_iff (e = f) (by simp)
    | .error _, .ok _ => isFalse (by simp)
    | .ok _, .error _ => isFalse (by simp)
    | .ok x, .ok y => decidable_of_iff (x = y) (by simp)

/-! ## Generic facts about `List.min?` / `List.max?` over `ℚ`

These connect the fold-based `min_by` / `max_by` of the source to the true
minimum/maximum of the coordinate list. -/

theorem min?_spec {l : List F64} (h : l ≠ []) :
    ∃ a, l.min? = some a ∧ a ∈ l ∧ ∀ x ∈ l, a ≤ x := by
  obtain ⟨a, ha⟩ : ∃ a, l.min? = some a := by
    cases hm : l.min? with
    | none => exact absurd (List.min?_eq_none_iff.1 hm) h
    | some a => exact ⟨a, rfl⟩
  refine ⟨a, ha, List.min?_mem min_choice ha, ?_⟩
  exact (List.le_min?_iff (fun _ _ _ => le_min_iff) ha).1 le_rfl

theorem max?_spec {l : List F64} (h : l ≠ []) :
    ∃ a, l.max? = some a ∧ a ∈ l ∧ ∀ x ∈ l, x ≤ a := by
  obtain ⟨a, ha⟩ : ∃ a, l.max? = some a := by
    cases hm : l.max? with
    | none => exact absurd (List.max?_eq_none_iff.1 hm) h
    | some a => exact ⟨a, rfl⟩
  refine ⟨a, ha, List.max?_mem max_choice ha, ?_⟩
  exact (List.max?_le_iff (fun _ _ _ => max_le_iff) ha).1 le_rfl

theorem mem_stepBy2_head (x : F64) (l : List F64) : x ∈ stepBy2 (x :: l) := by
  cases l <;> simp [stepBy2]

theorem coords_ne_nil {data : List (List F64)} {v : List F64} (hv : v ∈ data)
    (h2 : 2 ≤ v.length) : xsOf data ≠ [] ∧ ysOf data ≠ [] := by
  match v, h2 with
  | x :: y :: rest, _ =>
    have hx : x ∈ xsOf data := List.mem_flatten.2 ⟨stepBy2 (x :: y :: rest),
      List.mem_map_of_mem stepBy2 hv, mem_stepBy2_head x (y :: rest)⟩
    have hy : y ∈ ysOf data := List.mem_flatten.2 ⟨stepBy2 (x :: y :: rest).tail,
      List.mem_map_of_mem (fun v => stepBy2 v.tail) hv, mem_stepBy2_head y rest⟩
    exact ⟨List.ne_nil_of_mem hx, List.ne_nil_of_mem hy⟩

/-- C5: for every non-empty point set (some inner sequence holds a full
(x, y) pair), the axis-range computation of `chart_vector` succeeds and
returns `(minX, maxX, minY, maxY)` where `minX`/`maxX` are the exact
minimum/maximum of the even-position elements of the flat sequences and
`minY`/`maxY` of the odd-position elements, with `minX ≤ maxX` and
`minY ≤ maxY`. -/
theorem axisRanges_spec (data : List (List F64))
    (h : ∃ v ∈ data, 2 ≤ v.length) :
    ∃ mnx mxx mny mxy,
      axisRanges data = some (mnx, mxx, mny, mxy) ∧
      mnx ∈ xsOf data ∧ mxx ∈ xsOf data ∧ mny ∈ ysOf data ∧ mxy ∈ ysOf data ∧
      (∀ x ∈ xsOf data, mnx ≤ x ∧ x ≤ mxx) ∧
      (∀ y ∈ ysOf data, mny ≤ y ∧ y ≤ mxy) ∧
      mnx ≤ mxx ∧ mny ≤ mxy := by
  obtain ⟨v, hv, h2⟩ := h
  obtain ⟨hxs, hys⟩ := coords_ne_nil hv h2
  obtain ⟨mnx, hmnx, hmnxm, hmnxle⟩ := min?_spec hxs
  obtain ⟨mxx, hmxx, hmxxm, hmxxle⟩ := max?_spec hxs
  obtain ⟨mny, hmny, hmnym, hmnyle⟩ := min?_spec hys
  obtain ⟨mxy, hmxy, hmxym, hmxyle⟩ := max?_spec hys
  exact ⟨mnx, mxx, mny, mxy, by simp [axisRanges, hmnx, hmxx, hmny, hmxy],
    hmnxm, hmxxm, hmnym, hmxym,
    fun x hx => ⟨hmnxle x hx, hmxxle x hx⟩,
    fun y hy => ⟨hmnyle y hy, hmxyle y hy⟩,
    hmnxle mxx hmxxm, hmnyle mxy hmxym⟩

/-- C5 witness: the theorem applied to the concrete data `[[0, 1]]`. -/
theorem axisRanges_spec_witness :
    (∃ v ∈ ([[0, 1]] : List (List F64)), 2 ≤ v.length) ∧
      ∃ mnx mxx mny mxy,
        axisRanges [[0, 1]] = some (mnx, mxx, mny, mxy) ∧
        mnx ∈ xsOf [[0, 1]] ∧ mxx ∈ xsOf [[0, 1]] ∧
        mny ∈ ysOf [[0, 1]] ∧ mxy ∈ ysOf [[0, 1]] ∧
        (∀ x ∈ xsOf [[0, 1]], mnx ≤ x ∧ x ≤ mxx) ∧
        (∀ y ∈ ysOf [[0, 1]], mny ≤ y ∧ y ≤ mxy) ∧
        mnx ≤ mxx ∧ mny ≤ mxy :=
  ⟨by decide, axisRanges_spec [[0, 1]] (by decide)⟩

/-- C9: for every non-empty loss sequence, `plot_loss` computes its padded
Y-range as `paddedMin = min - 0.1·|min|` and `paddedMax = max + 0.1·|max|`
where `min`/`max` are the true minimum/maximum of the losses. -/
theorem plot_loss_yRange_spec (losses : List F64) (h : losses ≠ []) :
    ∃ mn mx, mn ∈ losses ∧ mx ∈ losses ∧
      (∀ x ∈ losses, mn ≤ x ∧ x ≤ mx) ∧
      plot_loss_yRange losses = some (mn - 1/10 * |mn|, mx + 1/10 * |mx|) := by
  obtain ⟨mn, hmn, hmnm, hmnle⟩ := min?_spec h
  obtain ⟨mx, hmx, hmxm, hmxle⟩ := max?_spec h
  exact ⟨mn, mx, hmnm, hmxm, fun x hx => ⟨hmnle x hx, hmxle x hx⟩,
    by simp [plot_loss_yRange, hmn, hmx]⟩

/-- C9 witness: the theorem applied to the spec's example `[5, 3, 4, 1]`. -/
theorem plot_loss_yRange_spec_witness :
    ([5, 3, 4, 1] : List F64) ≠ [] ∧
      ∃ mn mx, mn ∈ ([5, 3, 4, 1] : List F64) ∧ mx ∈ ([5, 3, 4, 1] : List F64) ∧
        (∀ x ∈ ([5, 3, 4, 1] : List F64), mn ≤ x ∧ x ≤ mx) ∧
        plot_loss_yRange [5, 3, 4, 1] = some (mn - 1/10 * |mn|, mx + 1/10 * |mx|) :=
  ⟨by decide, plot_loss_yRange_spec [5, 3, 4, 1] (by decide)⟩

/-- C10: the point-drawing stage of `chart_vector` reads positions 0 and 1 of
every inner sequence.  When every inner sequence has at least 2 elements the
indexing is in bounds and the stage succeeds; when some inner sequence is
shorter, the indexing is out of bounds (a Rust panic). -/
theorem drawPoints_index_bounds (data : List (List F64))
    (labels : Option (List String)) (lcs : List (String × Color))
    (i : ℕ) (sl : Series) :
    ((∀ v ∈ data, 2 ≤ v.length) →
        ∃ res, drawPoints labels lcs i sl data = .ok res) ∧
    ((∃ v ∈ data, v.length < 2) →
        drawPoints labels lcs i sl data = .error .indexOutOfBounds) := by
  induction data generalizing i sl with
  | nil => exact ⟨fun _ => ⟨([], sl), rfl⟩, by simp⟩
  | cons v rest ih =>
    constructor
    · intro hall
      have h2 := hall v (List.mem_cons_self _ _)
      match v, h2 with
      | x :: y :: t, _ =>
        obtain ⟨res, hres⟩ :=
          (ih (i + 1)
            (if pointLabel labels i = "" then sl
             else pushSeries sl (pointLabel labels i) (x, y)
                (pointColor lcs (pointLabel labels i)))).1
            (fun u hu => hall u (List.mem_cons_of_mem _ hu))
        simp only [drawPoints, List.get?_cons_zero, List.get?_cons_succ, hres]
        exact ⟨_, rfl⟩
    · intro hex
      obtain ⟨v0, hv0, hlen⟩ := hex
      rcases List.mem_cons.1 hv0 with rfl | hv0r
      · match v0, hlen with
        | [], _ => simp [drawPoints]
        | [x], _ => simp [drawPoints]
      · match v with
        | [] => simp [drawPoints]
        | [x] => simp [drawPoints]
        | x :: y :: t =>
          simp only [drawPoints, List.get?_cons_zero, List.get?_cons_succ,
            (ih (i + 1)
              (if pointLabel labels i = "" then sl
               else pushSeries sl (pointLabel labels i) (x, y)
                  (pointColor lcs (pointLabel labels i)))).2 ⟨v0, hv0r, hlen⟩]

/-- C10 witness: in bounds at `[[0, 1]]`, out of bounds at `[[0]]`. -/
theorem drawPoints_index_bounds_witness :
    (∃ res, drawPoints none [] 0 [] [[0, 1]] = .ok res) ∧
      drawPoints none [] 0 [] [[0]] = .error .indexOutOfBounds :=
  ⟨(drawPoints_index_bounds [[0, 1]] none [] 0 []).1 (by decide),
   (drawPoints_index_bounds [[0]] none [] 0 []).2 (by decide)⟩

/-! ## The label→color assignment -/

theorem labelColorsAux_map_fst (n : ℕ) (l : List String) :
    ∀ i, (labelColorsAux n i l).map Prod.fst = l := by
  induction l with
  | nil => intro i; rfl
  | cons a t ih => intro i; simp [labelColorsAux, ih]

theorem labelColorsAux_length (n : ℕ) (l : List String) :
    ∀ i, (labelColorsAux n i l).length = l.length := by
  induction l with
  | nil => intro i; rfl
  | cons a t ih => intro i; simp [labelColorsAux, ih]

theorem labelColorsAux_get? (n : ℕ) (l : List String) :
    ∀ i j, (labelColorsAux n i l).get? j =
      (l.get? j).map fun lab =>
        (lab, Color.hsl ⟨((i + j : ℕ) : F64) * 360 / (n : F64), 7/10, 6/10⟩) := by
  induction l with
  | nil => intro i j; rfl
  | cons a t ih =>
    intro i j
    cases j with
    | zero => simp [labelColorsAux]
    | succ j =>
      have h1 : i + 1 + j = i + (j + 1) := by omega
      simp only [labelColorsAux, List.get?_cons_succ, ih (i + 1) j, h1]

theorem snd_mem_labelColorsAux (n : ℕ) (l : List String) :
    ∀ i c, c ∈ (labelColorsAux n i l).map Prod.snd →
      ∃ k, i ≤ k ∧ k < i + l.length ∧
        c = Color.hsl ⟨(k : F64) * 360 / (n : F64), 7/10, 6/10⟩ := by
  induction l with
  | nil => intro i c hc; simp [labelColorsAux] at hc
  | cons a t ih =>
    intro i c hc
    simp only [labelColorsAux, List.map_cons, List.mem_cons] at hc
    rcases hc with rfl | hc
    · exact ⟨i, le_rfl, by simp, rfl⟩
    · obtain ⟨k, hk1, hk2, hk3⟩ := ih (i + 1) c hc
      refine ⟨k, by omega, ?_, hk3⟩
      simp only [List.length_cons]
      omega

theorem labelColorsAux_snd_nodup (n : ℕ) (hn : n ≠ 0) (l : List String) :
    ∀ i, ((labelColorsAux n i l).map Prod.snd).Nodup := by
  induction l with
  | nil => intro i; simp [labelColorsAux]
  | cons a t ih =>
    intro i
    simp only [labelColorsAux, List.map_cons, List.nodup_cons]
    refine ⟨fun hmem => ?_, ih (i + 1)⟩
    obtain ⟨k, hk1, _, hk3⟩ := snd_mem_labelColorsAux n t (i + 1) _ hmem
    have hq : ((n : F64)) ≠ 0 := Nat.cast_ne_zero.2 hn
    have hhue : (i : F64) * 360 / (n : F64) = (k : F64) * 360 / (n : F64) := by
      have := hk3
      simp only [Color.hsl.injEq, HSLColor.mk.injEq] at this
      exact this.1
    have : i = k := by field_simp at hhue; exact hhue
    omega

/-- C4: for `n` distinct labels the color assigner produces exactly `n`
colors, the `i`-th being the HSL color of hue `i·360/n` at saturation 0.7 and
lightness 0.6; no color (hence no hue) is reused for two positions, and
consecutive hues differ by exactly `360/n`.  Colors are compared at the HSL
level here, before the floating-point RGB conversion of the `hsl` crate. -/
theorem labelColorsOf_spec (ulabels : List String) (hnd : ulabels.Nodup) :
    (labelColorsOf ulabels).length = ulabels.length ∧
    (∀ i, (labelColorsOf ulabels).get? i =
      (ulabels.get? i).map fun lab =>
        (lab, Color.hsl ⟨(i : F64) * 360 / (ulabels.length : F64), 7/10, 6/10⟩)) ∧
    ((labelColorsOf ulabels).map Prod.snd).Nodup ∧
    (∀ i : ℕ, i + 1 < ulabels.length →
      ((i : F64) + 1) * 360 / (ulabels.length : F64) -
          (i : F64) * 360 / (ulabels.length : F64) =
        360 / (ulabels.length : F64)) := by
  refine ⟨labelColorsAux_length _ _ 0, fun i => ?_, ?_, fun i _ => ?_⟩
  · have := labelColorsAux_get? ulabels.length ulabels 0 i
    simpa using this
  · match ulabels with
    | [] => simp [labelColorsOf, labelColorsAux]
    | a :: t =>
      exact labelColorsAux_snd_nodup (a :: t).length (by simp) (a :: t) 0
  · rw [div_sub_div_same]
    congr 1
    ring

/-- C4 witness: the theorem applied to the distinct labels `["1", "2"]`. -/
theorem labelColorsOf_spec_witness :
    (["1", "2"] : List String).Nodup ∧
      (labelColorsOf ["1", "2"]).length = (["1", "2"] : List String).length ∧
      ((labelColorsOf ["1", "2"]).map Prod.snd).Nodup ∧
      (labelColorsOf ["1", "2"]).get? 1 =
        some ("2", Color.hsl ⟨(1 : F64) * 360 / ((2 : ℕ) : F64), 7/10, 6/10⟩) :=
  ⟨by decide, (labelColorsOf_spec ["1", "2"] (by decide)).1,
    (labelColorsOf_spec ["1", "2"] (by decide)).2.2.1,
    by rw [(labelColorsOf_spec ["1", "2"] (by decide)).2.1 1]; rfl⟩

/-! ## Concrete evaluations of `chart_vector`

The kernel cannot reduce the `ℕ → ℚ` casts appearing in the hue and spacing
arithmetic, so these run the renderer on concrete inputs once by `norm_num`
and are reused by the closed theorems below. -/

theorem chart_vector_eval_two_empty_labels :
    chart_vector [[0, 0], [1, 1]] (some ["", ""]) [""] none = .ok
      { cmds := [Cmd.fill Color.white, Cmd.caption "fast-umap", Cmd.mesh,
          Cmd.circle (0, 0) 3 false (Color.hsl ⟨0, 7/10, 6/10⟩),
          Cmd.circle (1, 1) 3 false (Color.hsl ⟨0, 7/10, 6/10⟩),
          Cmd.present],
        labelColors := [("", Color.hsl ⟨0, 7/10, 6/10⟩)],
        series := [], legendDivisor := some 0 } := by
  norm_num +decide [chart_vector, axisRanges, xsOf, ysOf, stepBy2, labelColorsOf,
    labelColorsAux, drawPoints, pointLabel, pointColor, pushSeries, sortSeries,
    seriesKey, parseUsize, digitsToNat, legendCmds, ChartConfig.default]

/-- C6 counterexample: with the label vector `["", ""]` the empty-string
label IS inserted into the label→color mapping, and the points labeled `""`
are drawn with its assigned HSL color rather than the red fallback — no red
circle appears in the trace at all. -/
theorem chart_vector_empty_label_inserted :
    HashSetOrder ["", ""] [""] ∧
    ∃ out, chart_vector [[0, 0], [1, 1]] (some ["", ""]) [""] none = .ok out ∧
      out.labelColors = [("", Color.hsl ⟨0, 7/10, 6/10⟩)] ∧
      Cmd.circle (0, 0) 3 false (Color.hsl ⟨0, 7/10, 6/10⟩) ∈ out.cmds ∧
      Cmd.circle (0, 0) 3 false Color.red ∉ out.cmds ∧
      Cmd.circle (1, 1) 3 false Color.red ∉ out.cmds := by
  refine ⟨by decide, _, chart_vector_eval_two_empty_labels, rfl, ?_, ?_, ?_⟩ <;> simp

/-- C6 (amended): a label is in the mapping exactly when it occurs in the
deduplicated label list — so the empty string IS inserted whenever the
caller's labels contain it — and the red fallback is used exactly for the
labels (the empty string included) that are absent from the mapping. -/
theorem labelColors_mapping_spec (ulabels : List String) (label : String) :
    (label ∈ (labelColorsOf ulabels).map Prod.fst ↔ label ∈ ulabels) ∧
    (label ∉ ulabels → pointColor (labelColorsOf ulabels) label = Color.red) := by
  constructor
  · rw [labelColorsOf, labelColorsAux_map_fst]
  · intro hnot
    unfold pointColor
    have hfind : (labelColorsOf ulabels).find? (fun p => p.1 == label) = none := by
      rw [List.find?_eq_none]
      intro x hx
      simp only [beq_iff_eq]
      intro heq
      apply hnot
      have hm : x.1 ∈ (labelColorsOf ulabels).map Prod.fst := List.mem_map_of_mem _ hx
      rw [labelColorsOf, labelColorsAux_map_fst] at hm
      rwa [heq] at hm
    rw [hfind]
    rfl

/-- C6 (amended) witness: the theorem applied at `ulabels = ["1"]`,
`label = "x"`. -/
theorem labelColors_mapping_spec_witness :
    ("x" : String) ∉ (["1"] : List String) ∧
      (("x" : String) ∈ (labelColorsOf ["1"]).map Prod.fst ↔
        ("x" : String) ∈ (["1"] : List String)) ∧
      pointColor (labelColorsOf ["1"]) "x" = Color.red :=
  ⟨by decide, (labelColors_mapping_spec ["1"] "x").1,
    (labelColors_mapping_spec ["1"] "x").2 (by decide)⟩

/-- C1: with zero points the claim requires a typed `EmptyDataset` error and
no panic; the code instead panics at the `unwrap()` of the empty `min_by`
fold — `chart_vector` returns `()` and has no error channel at all. -/
theorem chart_vector_zero_points_panics :
    chart_vector [] none [] none = .error Panic.unwrapEmptyMinMax ∧
    chart_vector [] (some ["1"]) ["1"] none = .error Panic.unwrapEmptyMinMax :=
  ⟨rfl, rfl⟩

theorem chart_vector_eval_two_alpha_labels :
    chart_vector [[0, 0], [1, 1]] (some ["a", "b"]) ["a", "b"] none =
      .error Panic.parseUnwrap := by
  norm_num +decide [chart_vector, axisRanges, xsOf, ysOf, stepBy2, labelColorsOf,
    labelColorsAux, drawPoints, pointLabel, pointColor, pushSeries, sortSeries,
    seriesKey, parseUsize, digitsToNat, legendCmds, ChartConfig.default]

theorem chart_vector_eval_one_alpha_label :
    chart_vector [[0, 0]] (some ["a"]) ["a"] none = .ok
      { cmds := [Cmd.fill Color.white, Cmd.caption "fast-umap", Cmd.mesh,
          Cmd.circle (0, 0) 3 false (Color.hsl ⟨0, 7/10, 6/10⟩),
          Cmd.circle (0, 0) 5 true (Color.hsl ⟨0, 7/10, 6/10⟩),
          Cmd.text "a" (0, 0),
          Cmd.present],
        labelColors := [("a", Color.hsl ⟨0, 7/10, 6/10⟩)],
        series := [("a", [(0, 0)], Color.hsl ⟨0, 7/10, 6/10⟩)],
        legendDivisor := some 2 } := by
  norm_num +decide [chart_vector, axisRanges, xsOf, ysOf, stepBy2, labelColorsOf,
    labelColorsAux, drawPoints, pointLabel, pointColor, pushSeries, sortSeries,
    seriesKey, parseUsize, digitsToNat, legendCmds, ChartConfig.default]

/-- C2: with two legend entries whose labels are not numeric, the claim
requires a typed `NonNumericLabelError`; the code instead panics at the
`parse::<usize>().unwrap()` inside the sort comparator.  Moreover with a
single legend entry the comparator never runs, so the same non-numeric label
renders successfully — the failure is not even uniform. -/
theorem chart_vector_non_numeric_label_panics :
    chart_vector [[0, 0], [1, 1]] (some ["a", "b"]) ["a", "b"] none =
        .error Panic.parseUnwrap ∧
    ∃ out, chart_vector [[0, 0]] (some ["a"]) ["a"] none = .ok out :=
  ⟨chart_vector_eval_two_alpha_labels, _, chart_vector_eval_one_alpha_label⟩

theorem chart_vector_eval_order12 :
    chart_vector [[0, 0], [1, 1]] (some ["1", "2"]) ["1", "2"] none = .ok
      { cmds := [Cmd.fill Color.white, Cmd.caption "fast-umap", Cmd.mesh,
          Cmd.circle (0, 0) 3 false (Color.hsl ⟨0, 7/10, 6/10⟩),
          Cmd.circle (1, 1) 3 false (Color.hsl ⟨180, 7/10, 6/10⟩),
          Cmd.circle (4/5, 9/10) 5 true (Color.hsl ⟨0, 7/10, 6/10⟩),
          Cmd.text "1" (69/80, 9/10),
          Cmd.circle (4/5, 13/20) 5 true (Color.hsl ⟨180, 7/10, 6/10⟩),
          Cmd.text "2" (69/80, 13/20),
          Cmd.present],
        labelColors := [("1", Color.hsl ⟨0, 7/10, 6/10⟩),
                        ("2", Color.hsl ⟨180, 7/10, 6/10⟩)],
        series := [("1", [(0, 0)], Color.hsl ⟨0, 7/10, 6/10⟩),
                   ("2", [(1, 1)], Color.hsl ⟨180, 7/10, 6/10⟩)],
        legendDivisor := some 4 } := by
  norm_num +decide [chart_vector, axisRanges, xsOf, ysOf, stepBy2, labelColorsOf,
    labelColorsAux, drawPoints, pointLabel, pointColor, pushSeries, sortSeries,
    seriesKey, parseUsize, digitsToNat, legendCmds, ChartConfig.default,
    List.insertionSort, List.orderedInsert]

theorem chart_vector_eval_order21 :
    chart_vector [[0, 0], [1, 1]] (some ["1", "2"]) ["2", "1"] none = .ok
      { cmds := [Cmd.fill Color.white, Cmd.caption "fast-umap", Cmd.mesh,
          Cmd.circle (0, 0) 3 false (Color.hsl ⟨180, 7/10, 6/10⟩),
          Cmd.circle (1, 1) 3 false (Color.hsl ⟨0, 7/10, 6/10⟩),
          Cmd.circle (4/5, 9/10) 5 true (Color.hsl ⟨180, 7/10, 6/10⟩),
          Cmd.text "1" (69/80, 9/10),
          Cmd.circle (4/5, 13/20) 5 true (Color.hsl ⟨0, 7/10, 6/10⟩),
          Cmd.text "2" (69/80, 13/20),
          Cmd.present],
        labelColors := [("2", Color.hsl ⟨0, 7/10, 6/10⟩),
                        ("1", Color.hsl ⟨180, 7/10, 6/10⟩)],
        series := [("1", [(0, 0)], Color.hsl ⟨180, 7/10, 6/10⟩),
                   ("2", [(1, 1)], Color.hsl ⟨0, 7/10, 6/10⟩)],
        legendDivisor := some 4 } := by
  norm_num +decide [chart_vector, axisRanges, xsOf, ysOf, stepBy2, labelColorsOf,
    labelColorsAux, drawPoints, pointLabel, pointColor, pushSeries, sortSeries,
    seriesKey, parseUsize, digitsToNat, legendCmds, ChartConfig.default,
    List.insertionSort, List.orderedInsert]

/-- C3: the claim requires byte-identical output on repeated renders of the
same input and configuration; but the label→color assignment depends on the
iteration order of the deduplicating `HashSet`, which Rust seeds randomly.
The two orders `["1", "2"]` and `["2", "1"]` are both valid iteration orders
of the same label set, and they produce different command traces (the point
and legend colors swap). -/
theorem chart_vector_hash_order_nondeterminism :
    HashSetOrder ["1", "2"] ["1", "2"] ∧ HashSetOrder ["1", "2"] ["2", "1"] ∧
    chart_vector [[0, 0], [1, 1]] (some ["1", "2"]) ["1", "2"] none ≠
      chart_vector [[0, 0], [1, 1]] (some ["1", "2"]) ["2", "1"] none := by
  refine ⟨by decide, by decide, ?_⟩
  rw [chart_vector_eval_order12, chart_vector_eval_order21]
  simp +decide

/-! ## Structure of the command trace -/

theorem drawPoints_cons_inv (labels : Option (List String))
    (lcs : List (String × Color)) (i : ℕ) (sl : Series) (v : List F64)
    (rest : List (List F64)) (res : List Cmd × Series)
    (h : drawPoints labels lcs i sl (v :: rest) = .ok res) :
    ∃ x y cmds slOut,
      v.get? 0 = some x ∧ v.get? 1 = some y ∧
      drawPoints labels lcs (i + 1)
          (if pointLabel labels i = "" then sl
           else pushSeries sl (pointLabel labels i) (x, y)
              (pointColor lcs (pointLabel labels i))) rest
        = .ok (cmds, slOut) ∧
      res = (Cmd.circle (x, y) 3 false (pointColor lcs (pointLabel labels i)) :: cmds,
        slOut) := by
  match v with
  | [] => simp [drawPoints] at h
  | [x] => simp [drawPoints] at h
  | x :: y :: t =>
    simp only [drawPoints, List.get?_cons_zero, List.get?_cons_succ] at h
    cases hrec : drawPoints labels lcs (i + 1)
        (if pointLabel labels i = "" then sl
         else pushSeries sl (pointLabel labels i) (x, y)
            (pointColor lcs (pointLabel labels i))) rest with
    | error p => rw [hrec] at h; simp at h
    | ok pr =>
      obtain ⟨cmds, slOut⟩ := pr
      rw [hrec] at h
      simp only [Except.ok.injEq] at h
      exact ⟨x, y, cmds, slOut, rfl, rfl, hrec, h.symm⟩

theorem drawPoints_cmds_circles (labels : Option (List String))
    (lcs : List (String × Color)) (data : List (List F64)) :
    ∀ i sl pointCmds slOut,
      drawPoints labels lcs i sl data = .ok (pointCmds, slOut) →
      ∀ c ∈ pointCmds, ∃ ctr col, c = Cmd.circle ctr 3 false col := by
  induction data with
  | nil =>
    intro i sl pointCmds slOut h
    simp only [drawPoints, Except.ok.injEq] at h
    obtain ⟨rfl, rfl⟩ : pointCmds = [] ∧ slOut = sl := by
      cases h; exact ⟨rfl, rfl⟩
    simp
  | cons v rest ih =>
    intro i sl pointCmds slOut h c hc
    obtain ⟨x, y, cmds, slOut', _, _, hrec, hres⟩ :=
      drawPoints_cons_inv labels lcs i sl v rest _ h
    injection hres with h1 h2
    subst h1; subst h2
    rcases List.mem_cons.1 hc with rfl | hc
    · exact ⟨(x, y), pointColor lcs (pointLabel labels i), rfl⟩
    · exact ih (i + 1) _ cmds _ hrec c hc

theorem mem_pushSeries_fst (sl : Series) (label : String) (pt : F64 × F64)
    (c : Color) (s : String) :
    s ∈ (pushSeries sl label pt c).map Prod.fst ↔
      s ∈ sl.map Prod.fst ∨ s = label := by
  unfold pushSeries
  split
  case isTrue hfound =>
    have hmapeq : ((sl.map fun e => if e.1 == label then (e.1, e.2.1 ++ [pt], e.2.2)
        else e).map Prod.fst) = sl.map Prod.fst := by
      rw [List.map_map]
      apply List.map_congr_left
      intro e _
      by_cases h : e.1 = label <;> simp [h]
    rw [hmapeq]
    constructor
    · exact Or.inl
    · rintro (h | rfl)
      · exact h
      · obtain ⟨e, he⟩ := Option.isSome_iff_exists.1 hfound
        have hmem := List.mem_of_find?_eq_some he
        have hpe := List.find?_some he
        simp only [beq_iff_eq] at hpe
        exact hpe ▸ List.mem_map_of_mem Prod.fst hmem
  case isFalse =>
    simp [or_comm]

theorem pointLabel_exists_shift (labels : Option (List String)) (i len : ℕ)
    (s : String) :
    (∃ j, j < len + 1 ∧ pointLabel labels (i + j) = s) ↔
      (pointLabel labels i = s ∨
        ∃ j, j < len ∧ pointLabel labels (i + 1 + j) = s) := by
  constructor
  · rintro ⟨j, hj, hp⟩
    cases j with
    | zero => exact Or.inl (by simpa using hp)
    | succ j =>
      refine Or.inr ⟨j, by omega, ?_⟩
      rw [show i + 1 + j = i + (j + 1) from by omega]
      exact hp
  · rintro (hp | ⟨j, hj, hp⟩)
    · exact ⟨0, by omega, by simpa using hp⟩
    · refine ⟨j + 1, by omega, ?_⟩
      rw [show i + (j + 1) = i + 1 + j from by omega]
      exact hp

theorem drawPoints_series_labels (labels : Option (List String))
    (lcs : List (String × Color)) (data : List (List F64)) :
    ∀ i sl pointCmds slOut,
      drawPoints labels lcs i sl data = .ok (pointCmds, slOut) →
      ∀ s, s ∈ slOut.map Prod.fst ↔
        (s ∈ sl.map Prod.fst ∨
          (s ≠ "" ∧ ∃ j, j < data.length ∧ pointLabel labels (i + j) = s)) := by
  induction data with
  | nil =>
    intro i sl pointCmds slOut h s
    simp only [drawPoints, Except.ok.injEq] at h
    obtain ⟨rfl, rfl⟩ : pointCmds = [] ∧ slOut = sl := by
      cases h; exact ⟨rfl, rfl⟩
    simp
  | cons v rest ih =>
    intro i sl pointCmds slOut h s
    obtain ⟨x, y, cmds, slOut', _, _, hrec, hres⟩ :=
      drawPoints_cons_inv labels lcs i sl v rest _ h
    injection hres with h1 h2
    subst h1; subst h2
    rw [ih (i + 1) _ cmds _ hrec s]
    simp only [List.length_cons, pointLabel_exists_shift labels i rest.length s]
    by_cases hL : pointLabel labels i = ""
    · rw [hL] at *
      simp only [if_pos rfl]
      constructor
      · rintro (h1 | ⟨hne, hj⟩)
        · exact Or.inl h1
        · exact Or.inr ⟨hne, Or.inr hj⟩
      · rintro (h1 | ⟨hne, hp | hj⟩)
        · exact Or.inl h1
        · exact absurd (hp.symm.trans hL) hne
        · exact Or.inr ⟨hne, hj⟩
    · rw [if_neg hL, mem_pushSeries_fst]
      constructor
      · rintro ((h1 | rfl) | ⟨hne, hj⟩)
        · exact Or.inl h1
        · exact Or.inr ⟨hL, Or.inl rfl⟩
        · exact Or.inr ⟨hne, Or.inr hj⟩
      · rintro (h1 | ⟨hne, hp | hj⟩)
        · exact Or.inl (Or.inl h1)
        · exact Or.inl (Or.inr hp.symm)
        · exact Or.inr ⟨hne, hj⟩

theorem legendCmds_shape (spacing : F64) (sorted : Series) :
    ∀ pos c, c ∈ legendCmds spacing sorted pos →
      (∃ ctr col, c = Cmd.circle ctr 5 true col) ∨
        (∃ str p, c = Cmd.text str p ∧ str ∈ sorted.map Prod.fst) := by
  induction sorted with
  | nil => intro pos c hc; simp [legendCmds] at hc
  | cons e rest ih =>
    obtain ⟨label, pts, color⟩ := e
    intro pos c hc
    simp only [legendCmds, List.mem_cons] at hc
    rcases hc with rfl | rfl | hc
    · exact Or.inl ⟨pos, color, rfl⟩
    · exact Or.inr ⟨label, _, rfl, by simp⟩
    · rcases ih _ c hc with h1 | ⟨str, p, rfl, hstr⟩
      · exact Or.inl h1
      · exact Or.inr ⟨str, p, rfl, by simp only [List.map_cons]; exact List.mem_cons_of_mem _ hstr⟩

theorem legendCmds_text_of_mem (spacing : F64) (sorted : Series) :
    ∀ pos s, s ∈ sorted.map Prod.fst →
      ∃ p, Cmd.text s p ∈ legendCmds spacing sorted pos := by
  induction sorted with
  | nil => intro pos s hs; simp at hs
  | cons e rest ih =>
    obtain ⟨label, pts, color⟩ := e
    intro pos s hs
    simp only [List.map_cons, List.mem_cons] at hs
    rcases hs with rfl | hs
    · exact ⟨(pos.1 + spacing / 4, pos.2), by simp [legendCmds]⟩
    · obtain ⟨p, hp⟩ := ih (pos.1, pos.2 - spacing) s hs
      exact ⟨p, by simp only [legendCmds, List.mem_cons]; exact Or.inr (Or.inr hp)⟩

theorem sortSeries_fst_mem (sl sorted : Series) (h : sortSeries sl = .ok sorted) :
    ∀ s, s ∈ sorted.map Prod.fst ↔ s ∈ sl.map Prod.fst := by
  unfold sortSeries at h
  split at h
  · obtain rfl : sl = sorted := by cases h; rfl
    exact fun s => Iff.rfl
  · split at h
    · obtain rfl : List.insertionSort (fun a b => seriesKey a ≤ seriesKey b) sl = sorted := by
        cases h; rfl
      intro s
      simp only [List.mem_map]
      constructor
      · rintro ⟨e, he, rfl⟩
        exact ⟨e, (List.mem_insertionSort _).1 he, rfl⟩
      · rintro ⟨e, he, rfl⟩
        exact ⟨e, (List.mem_insertionSort _).2 he, rfl⟩
    · simp at h

/-- Inversion of a successful labeled render: the intermediate results of
each stage and the exact shape of the final command trace. -/
theorem chart_vector_some_ok_inv (data : List (List F64)) (ls hashOrder : List String)
    (config : Option ChartConfig) (out : Output)
    (h : chart_vector data (some ls) hashOrder config = .ok out) :
    ∃ mnx mxx mny mxy pointCmds seriesList,
      axisRanges data = some (mnx, mxx, mny, mxy) ∧
      drawPoints (some ls) (labelColorsOf hashOrder) 0 [] data = .ok (pointCmds, seriesList) ∧
      sortSeries seriesList = .ok out.series ∧
      out.legendDivisor = some (out.series.length * 2) ∧
      out.labelColors = labelColorsOf hashOrder ∧
      out.cmds = Cmd.fill Color.white ::
        Cmd.caption (config.getD ChartConfig.default).caption :: Cmd.mesh ::
          (pointCmds ++
            (legendCmds ((mxy - mny) / ((out.series.length * 2 : ℕ) : F64)) out.series
                (mnx + (mxx - mnx) * (8/10), mxy - (mxy - mny) * (1/10)) ++
              [Cmd.present])) := by
  unfold chart_vector at h
  cases hA : axisRanges data with
  | none => rw [hA] at h; simp at h
  | some quad =>
    obtain ⟨mnx, mxx, mny, mxy⟩ := quad
    rw [hA] at h
    simp only at h
    cases hD : drawPoints (some ls) (labelColorsOf hashOrder) 0 [] data with
    | error p => rw [hD] at h; simp at h
    | ok pr =>
      obtain ⟨pointCmds, seriesList⟩ := pr
      rw [hD] at h
      simp only at h
      cases hS : sortSeries seriesList with
      | error p => rw [hS] at h; simp at h
      | ok sorted =>
        rw [hS] at h
        simp only [Except.ok.injEq] at h
        subst h
        exact ⟨mnx, mxx, mny, mxy, pointCmds, seriesList, rfl, rfl, hS, rfl, rfl, rfl⟩

theorem chart_vector_eval_no_label_entries :
    chart_vector [[0, 0], [1, 1]] (some []) [] none = .ok
      { cmds := [Cmd.fill Color.white, Cmd.caption "fast-umap", Cmd.mesh,
          Cmd.circle (0, 0) 3 false Color.red,
          Cmd.circle (1, 1) 3 false Color.red,
          Cmd.present],
        labelColors := [], series := [], legendDivisor := some 0 } := by
  norm_num +decide [chart_vector, axisRanges, xsOf, ysOf, stepBy2, labelColorsOf,
    labelColorsAux, drawPoints, pointLabel, pointColor, pushSeries, sortSeries,
    seriesKey, parseUsize, digitsToNat, legendCmds, ChartConfig.default]

/-- C7 counterexample: a labels vector is supplied but yields zero legend
entries; the legend block is NOT skipped, and the `spacing_y` division IS
evaluated with divisor `2 · 0 = 0` (in Rust's f64 arithmetic this yields an
infinity rather than a trap, and no legend row is drawn). -/
theorem chart_vector_zero_labels_divisor_evaluated :
    ∃ out, chart_vector [[0, 0], [1, 1]] (some []) [] none = .ok out ∧
      out.series = [] ∧ out.legendDivisor = some 0 :=
  ⟨_, chart_vector_eval_no_label_entries, rfl, rfl⟩

/-- C7 (amended): the legend block is guarded only by `labels.is_some()`.
Whenever a labels vector is supplied and the render succeeds, the spacing
divisor `series_list.len() * 2` is evaluated — `0` included, recorded in
`legendDivisor` — but with zero legend entries no legend row (no text
command) is drawn, so the render still completes. -/
theorem chart_vector_legendDivisor (data : List (List F64))
    (ls hashOrder : List String) (config : Option ChartConfig) (out : Output)
    (h : chart_vector data (some ls) hashOrder config = .ok out) :
    out.legendDivisor = some (out.series.length * 2) ∧
    (out.series = [] → ∀ s p, Cmd.text s p ∉ out.cmds) := by
  obtain ⟨mnx, mxx, mny, mxy, pointCmds, seriesList, hA, hD, hS, hDiv, hLC, hCmds⟩ :=
    chart_vector_some_ok_inv data ls hashOrder config out h
  refine ⟨hDiv, fun hser s p hmem => ?_⟩
  rw [hCmds, hser] at hmem
  simp only [legendCmds, List.nil_append, List.mem_cons, List.mem_append,
    List.mem_singleton, List.mem_nil_iff, reduceCtorEq, false_or, or_false] at hmem
  obtain ⟨ctr, col, hcc⟩ :=
    drawPoints_cmds_circles (some ls) (labelColorsOf hashOrder) data 0 []
      pointCmds seriesList hD _ hmem
  exact Cmd.noConfusion hcc

/-- C7 witness: the amended theorem applied to a successful render with a
labels vector but zero legend entries. -/
theorem chart_vector_legendDivisor_witness :
    ∃ out, chart_vector [[0, 0], [1, 1]] (some []) [] none = .ok out ∧
      out.legendDivisor = some (out.series.length * 2) ∧
      ∀ s p, Cmd.text s p ∉ out.cmds :=
  ⟨_, chart_vector_eval_no_label_entries,
    (chart_vector_legendDivisor _ _ _ _ _ chart_vector_eval_no_label_entries).1,
    (chart_vector_legendDivisor _ _ _ _ _ chart_vector_eval_no_label_entries).2 rfl⟩

/-- C8: in every successful labeled render the per-label coordinate lists
grouped during point drawing are never drawn as connecting lines — no
`lineSeries` command appears in the trace — and the legend text entries are
exactly the non-empty labels attached to at least one drawn point. -/
theorem chart_vector_no_lines_and_legend (data : List (List F64))
    (ls hashOrder : List String) (config : Option ChartConfig) (out : Output)
    (h : chart_vector data (some ls) hashOrder config = .ok out) :
    (∀ pts c, Cmd.lineSeries pts c ∉ out.cmds) ∧
    (∀ s, (∃ p, Cmd.text s p ∈ out.cmds) ↔
      (s ≠ "" ∧ ∃ j, j < data.length ∧ pointLabel (some ls) j = s)) := by
  obtain ⟨mnx, mxx, mny, mxy, pointCmds, seriesList, hA, hD, hS, hDiv, hLC, hCmds⟩ :=
    chart_vector_some_ok_inv data ls hashOrder config out h
  have hfst := sortSeries_fst_mem seriesList out.series hS
  have hlab := drawPoints_series_labels (some ls) (labelColorsOf hashOrder) data
    0 [] pointCmds seriesList hD
  constructor
  · intro pts c hmem
    rw [hCmds] at hmem
    simp only [List.mem_cons, List.mem_append, List.mem_singleton, List.mem_nil_iff,
      reduceCtorEq, false_or, or_false] at hmem
    rcases hmem with h1 | h1
    · obtain ⟨ctr, col, hcc⟩ := drawPoints_cmds_circles (some ls)
        (labelColorsOf hashOrder) data 0 [] pointCmds seriesList hD _ h1
      exact Cmd.noConfusion hcc
    · rcases legendCmds_shape _ out.series _ _ h1 with ⟨ctr, col, hcc⟩ | ⟨str, p, hcc, _⟩
      · exact Cmd.noConfusion hcc
      · exact Cmd.noConfusion hcc
  · intro s
    constructor
    · rintro ⟨p, hmem⟩
      rw [hCmds] at hmem
      simp only [List.mem_cons, List.mem_append, List.mem_singleton, List.mem_nil_iff,
        reduceCtorEq, false_or, or_false] at hmem
      rcases hmem with h1 | h1
      · obtain ⟨ctr, col, hcc⟩ := drawPoints_cmds_circles (some ls)
          (labelColorsOf hashOrder) data 0 [] pointCmds seriesList hD _ h1
        exact Cmd.noConfusion hcc
      · rcases legendCmds_shape _ out.series _ _ h1 with ⟨ctr, col, hcc⟩ | ⟨str, p', hcc, hstr⟩
        · exact Cmd.noConfusion hcc
        · obtain rfl : s = str := by injection hcc
          have hs1 := (hfst s).1 hstr
          have hs2 := (hlab s).1 hs1
          simp only [List.map_nil, List.not_mem_nil, false_or, Nat.zero_add] at hs2
          exact hs2
    · rintro ⟨hne, j, hj, hpl⟩
      have hsl : s ∈ seriesList.map Prod.fst := by
        refine (hlab s).2 (Or.inr ⟨hne, j, hj, ?_⟩)
        simpa using hpl
      have hsorted : s ∈ out.series.map Prod.fst := (hfst s).2 hsl
      obtain ⟨p, hp⟩ := legendCmds_text_of_mem
        ((mxy - mny) / ((out.series.length * 2 : ℕ) : F64)) out.series
        (mnx + (mxx - mnx) * (8/10), mxy - (mxy - mny) * (1/10)) s hsorted
      refine ⟨p, ?_⟩
      rw [hCmds]
      simp only [List.mem_cons, List.mem_append, List.mem_singleton]
      exact Or.inr (Or.inr (Or.inr (Or.inr (Or.inl hp))))

/-- C8 witness: the theorem applied to a successful labeled render with
labels `["1", "2"]`. -/
theorem chart_vector_no_lines_and_legend_witness :
    ∃ out, chart_vector [[0, 0], [1, 1]] (some ["1", "2"]) ["1", "2"] none = .ok out ∧
      (∀ pts c, Cmd.lineSeries pts c ∉ out.cmds) ∧
      (∀ s, (∃ p, Cmd.text s p ∈ out.cmds) ↔
        (s ≠ "" ∧ ∃ j, j < ([[0, 0], [1, 1]] : List (List F64)).length ∧
          pointLabel (some ["1", "2"]) j = s)) :=
  ⟨_, chart_vector_eval_order12,
    chart_vector_no_lines_and_legend _ _ _ _ _ chart_vector_eval_order12⟩

end FastUmap
